import Mathlib

set_option maxRecDepth 4096

namespace PgExtend

/-! Shallow embedding of the pg-extend-rs core subsystems:
value marshaling (`pg-extend/src/pg_datum.rs`, `pg-extend/src/native/varlena.rs`),
the exception bridge (`pg-extend/src/lib.rs`, function `guard_pg`),
the arena switch (`pg-extend/src/pg_alloc.rs`), and the foreign table
callback surface (`pg-extend/src/pg_fdw.rs`).

Machine words are modelled as `Nat` with explicit reductions mod powers of
two. A 64-bit platform is assumed throughout: the source itself statically
asserts that `Datum` (= `usize`) accommodates 64-bit values
(`pg_datum.rs`, the `assert!` in the `i64` conversions). -/

/-- A Postgres `Datum`: a fixed-width machine word (`usize`, 64 bits on the
supported platforms), modelled as a natural number; constructions keep the
value below `2 ^ 64`. -/
abbrev Datum := Nat

/-- The wrapper struct `PgDatum` from `pg_datum.rs`: an optional `Datum`,
where `none` is the out-of-band null flag (the `Option<Datum>` field). -/
abbrev PgDatum := Option Datum

/-- Interpretation of the low `w` bits of a word as a twos-complement signed
integer. This is what the Rust cast `datum as iW` computes for a signed
`w`-bit integer target. -/
def lowBitsAsSigned (w : Nat) (d : Nat) : Int :=
  let r := d % 2 ^ w
  if r < 2 ^ (w - 1) then (r : Int) else (r : Int) - 2 ^ w

/-- The Rust cast `value as Datum` applied to a signed integer: the
twos-complement representation of `v` in the 64-bit word, i.e. the
nonnegative representative of `v` mod `2 ^ 64` (sign extension). -/
def signedAsWord (v : Int) : Nat := (v % (2 ^ 64 : Int)).toNat

/-- Embedding of `impl From<i16> for PgDatum` (`pg_datum.rs`): `value as Datum`. -/
def pgDatumFromI16 (v : Int) : PgDatum := some (signedAsWord v)

/-- Embedding of `impl From<i32> for PgDatum`: `value as Datum`. -/
def pgDatumFromI32 (v : Int) : PgDatum := some (signedAsWord v)

/-- Embedding of `impl From<i64> for PgDatum`: `value as Datum`, after the
static assertion that the word holds 64-bit values. -/
def pgDatumFromI64 (v : Int) : PgDatum := some (signedAsWord v)

/-- Embedding of `impl TryFromPgDatum for i16`: `Ok(datum as i16)` on a
non-null word, `Err("datum was NULL")` on a null one. -/
def tryFromI16 (d : PgDatum) : Except String Int :=
  match d with
  | some datum => .ok (lowBitsAsSigned 16 datum)
  | none => .error "datum was NULL"

/-- Embedding of `impl TryFromPgDatum for i32`. -/
def tryFromI32 (d : PgDatum) : Except String Int :=
  match d with
  | some datum => .ok (lowBitsAsSigned 32 datum)
  | none => .error "datum was NULL"

/-- Embedding of `impl TryFromPgDatum for i64`. -/
def tryFromI64 (d : PgDatum) : Except String Int :=
  match d with
  | some datum => .ok (lowBitsAsSigned 64 datum)
  | none => .error "datum was NULL"

/-- An `f32` value, modelled by its IEEE-754 bit pattern (a `u32`): the code
never interprets float bits numerically, it only moves them with
`f32::to_bits` / `f32::from_bits`. The domain constraint `bits < 2 ^ 32`
appears as a hypothesis where needed. -/
structure F32 where
  bits : Nat
deriving DecidableEq

/-- An `f64` value, modelled by its bit pattern (a `u64`). -/
structure F64 where
  bits : Nat
deriving DecidableEq

/-- Embedding of `impl From<f32> for PgDatum`: `f32::to_bits(value) as Datum`
(zero extension of the `u32` bit pattern into the word). -/
def pgDatumFromF32 (v : F32) : PgDatum := some v.bits

/-- Embedding of `impl TryFromPgDatum for f32`: `f32::from_bits(datum as u32)`
(truncation of the word to its low 32 bits). -/
def tryFromF32 (d : PgDatum) : Except String F32 :=
  match d with
  | some datum => .ok ⟨datum % 2 ^ 32⟩
  | none => .error "datum was NULL"

/-- Embedding of `impl From<f64> for PgDatum`: `f64::to_bits(value) as Datum`. -/
def pgDatumFromF64 (v : F64) : PgDatum := some v.bits

/-- Embedding of `impl TryFromPgDatum for f64`: `f64::from_bits(datum as u64)`. -/
def tryFromF64 (d : PgDatum) : Except String F64 :=
  match d with
  | some datum => .ok ⟨datum % 2 ^ 64⟩
  | none => .error "datum was NULL"

/-- Embedding of `impl TryFromPgDatum for Text` (`pg_datum.rs`): the code
adopts the word as a `text` pointer without dereferencing it; modelled as
returning the word itself. A null word yields the null error. -/
def tryFromTextDatum (d : PgDatum) : Except String Datum :=
  match d with
  | some datum => .ok datum
  | none => .error "datum was NULL"

/-- Embedding of `impl TryFromPgDatum for CString` (and the owned
`PgAllocated<CString>` variant): on a non-null word the host routine
`text_to_cstring` runs under `guard_pg` and produces the copied-out bytes;
that host routine is a parameter of the model. A null word never reaches
the host and yields the null error. -/
def tryFromCStringDatum (textToCString : Datum → List Nat) (d : PgDatum) :
    Except String (List Nat) :=
  match d with
  | some datum => .ok (textToCString datum)
  | none => .error "datum was NULL"

/-- Embedding of `impl TryFromPgDatum for Option<T>` (`pg_datum.rs:329`): a
null word is the absent value `Ok(None)`; otherwise the inner conversion
for `T` runs and its error propagates, a success being wrapped in `Some`. -/
def tryFromOption {α : Type} (inner : PgDatum → Except String α) (d : PgDatum) :
    Except String (Option α) :=
  match d with
  | none => .ok none
  | some x => (inner (some x)).map some

/-- Embedding of `impl From<Option<T>> for PgDatum`: absent maps to the null
word unconditionally, present delegates to the inner conversion. -/
def pgDatumFromOption {α : Type} (inner : α → PgDatum) (v : Option α) : PgDatum :=
  match v with
  | some value => inner value
  | none => none

/-! Variable-length headers, `pg-extend/src/native/varlena.rs`. -/

/-- A `varlena` value: the raw byte sequence that a `varlena` pointer
references. The code reads it through the `varattrib_1b` view (first byte)
and the `varattrib_4b` view (first four bytes as a native-endian `u32`;
little-endian is assumed, matching the supported platforms). -/
structure Varlena where
  bytes : List Nat
deriving DecidableEq

/-- The `va_header` field of the `varattrib_1b` view: the first byte. -/
def Varlena.vaHeader1b (v : Varlena) : Nat := v.bytes.getD 0 0

/-- The `va_header` field of the `varattrib_4b` view: the first four bytes
assembled as a little-endian `u32`. -/
def Varlena.vaHeader4b (v : Varlena) : Nat :=
  v.bytes.getD 0 0 + 2 ^ 8 * v.bytes.getD 1 0 + 2 ^ 16 * v.bytes.getD 2 0 +
    2 ^ 24 * v.bytes.getD 3 0

/-- The classification enum `VarLenA` (`varlena.rs:14`); the two borrowing
variants carry the underlying value like their Rust references do. -/
inductive VarLenA where
  | VarAtt4b (v : Varlena)
  | VarAtt4bU
  | VarAtt4bC
  | VarAtt1b (v : Varlena)
  | VarAtt1bE
  | VarAttNotPadByte
deriving DecidableEq

/-- Embedding of `VarLenA::from_varlena` (`varlena.rs:27`): the chain of
header tests, in source order, on the `varattrib_1b` header byte. -/
def VarLenA.from_varlena (v : Varlena) : VarLenA :=
  if v.vaHeader1b &&& 0x01 = 0x00 then .VarAtt4b v
  else if v.vaHeader1b &&& 0x03 = 0x00 then .VarAtt4bU
  else if v.vaHeader1b &&& 0x03 = 0x02 then .VarAtt4bC
  else if v.vaHeader1b &&& 0x01 = 0x01 then .VarAtt1b v
  else if v.vaHeader1b = 0x01 then .VarAtt1bE
  else .VarAttNotPadByte

/-- Embedding of `VarLenA::len` (`varlena.rs:61`): the masked, shifted length
field minus the header size (4 bytes for the 4-byte header, 1 byte for the
1-byte header); `none` models the `unimplemented!` panic of the remaining
variants. Subtraction is the truncated `Nat` subtraction; a header whose
stored total length is smaller than the header size is malformed. -/
def VarLenA.len : VarLenA → Option Nat
  | .VarAtt4b v => some (((v.vaHeader4b >>> 2) &&& 0x3FFFFFFF) - 4)
  | .VarAtt1b v => some (((v.vaHeader1b >>> 1) &&& 0x7F) - 1)
  | _ => none

/-- Embedding of `VarLenA::as_slice` (`varlena.rs:82`): the `len` payload
bytes following the header; `none` models the `unimplemented!` panic. -/
def VarLenA.as_slice : VarLenA → Option (List Nat)
  | .VarAtt4b v =>
    (VarLenA.len (.VarAtt4b v)).map fun n => (v.bytes.drop 4).take n
  | .VarAtt1b v =>
    (VarLenA.len (.VarAtt1b v)).map fun n => (v.bytes.drop 1).take n
  | _ => none

/-! Array conversion, `impl TryFromPgDatum for &[T]` (`pg_datum.rs:423`). -/

/-- The in-memory `ArrayType` that a non-null array word references, as the
conversion observes it after `pg_detoast_datum`: the fields the code reads
(`ndim`, `elemtype`) plus the parallel element-datum array and null bitmap
that the host routine `deconstruct_array` extracts from it. -/
structure ArrayType where
  ndim : Int
  elemtype : Nat
  elements : List Datum
  nulls : List Bool
deriving DecidableEq

/-- Reinterpretation of the element-datum array as a slice of `i32`, exactly
as the cast in `pg_datum.rs:471-481` does it: the slice length is
`mem_size_datums / mem_size_type` = `(8 * nelems) / 4`, i.e. two `i32`
values per 8-byte datum, reading the low and then the high 32-bit half of
each word (little-endian 64-bit platform). -/
def datumsAsI32Slice (datums : List Datum) : List Int :=
  datums.flatMap fun d =>
    [lowBitsAsSigned 32 (d % 2 ^ 32), lowBitsAsSigned 32 (d / 2 ^ 32)]

/-- Embedding of `impl TryFromPgDatum for &[i32]`: null word and
null pointer checks (`DetoastedArrayWrapper::detoasted`), then the
dimensionality test `ndim > 1`, then `get_typlenbyvalalign` and
`deconstruct_array` (summarized by the `heap` parameter giving, for a
non-null pointer word, the detoasted array and its extracted elements),
and finally the raw slice cast over the datum array. -/
def tryFromSliceI32 (heap : Datum → ArrayType) (d : PgDatum) : Except String (List Int) :=
  match d with
  | none => .error "datum was NULL"
  | some datum =>
    if datum = 0 then .error "datum was NULL"
    else
      let arr := heap datum
      if 1 < arr.ndim then .error "argument must be empty or one-dimensional array"
      else .ok (datumsAsI32Slice arr.elements)

/-! Exception bridge, `guard_pg` (`pg-extend/src/lib.rs:170`) together with
the panic hook installed by `register_panic_handler` (`lib.rs:108`). -/

/-- The process-wide bridge state: `PG_exception_stack` (the address of the
currently installed exception target), a supply of fresh addresses for the
stack-local `sigjmp_buf` of each active `guard_pg` frame, and
instrumentation counting the saves and restores of a previous target (the
claim is stated by comparing save and restore counts). -/
structure BridgeState where
  cur : Nat
  fresh : Nat
  saves : Nat
  restores : Nat
deriving DecidableEq

/-- How control leaves a piece of guest code: a normal return, or a
non-local jump in flight. After the installed panic hook, every abnormal
exit is a `longjmp` carrying a jump code, aimed at whatever
`PG_exception_stack` holds at the moment of the jump: a host error does
this directly, and a guest panic reaches the hook, which either re-throws a
wrapped `JumpContext` code via `pg_sys_longjmp` or reports the payload to
the host at error severity, which itself long-jumps. -/
inductive Flow where
  | normal : Flow
  | jump (code : Nat) : Flow
deriving DecidableEq

/-- The closures handed to `guard_pg`, as a little language: return
normally, call a host routine that signals an error (a `longjmp` with the
given code), panic on the guest side (a `GuestFault`, any non-`JumpContext`
payload), sequence two bodies, or make a nested `guard_pg` call. -/
inductive Body where
  | ret : Body
  | hostJump (code : Nat) : Body
  | guestPanic : Body
  | seq (a b : Body) : Body
  | guarded (f : Body) : Body
deriving DecidableEq

/-- Operational model of `guard_pg` and the panic hook. The `guarded` case
is `guard_pg` itself: save `PG_exception_stack` into `original`, `sigsetjmp`
into a fresh local buffer, install it, run the closure. On a normal return
the prior target is restored (`lib.rs:198`). On a jump aimed at the local
buffer, control re-enters the `sigsetjmp` with a nonzero code: the prior
target is restored (`lib.rs:183`) and the code is re-thrown as a
`JumpContext` panic, which the hook turns back into a jump now aimed at the
restored prior target. A jump aimed at any other buffer would bypass this
frame entirely (the invariant proof shows this never happens). A
`guestPanic` reaches the hook with a non-`JumpContext` payload, is reported
at error severity, and the host long-jumps to the current target with code
1; `hostJump c` long-jumps directly (`sigsetjmp` reports 1 when the code is
0). -/
def runBody : Body → BridgeState → Flow × BridgeState
  | .ret, s => (.normal, s)
  | .hostJump c, s => (.jump (max c 1), s)
  | .guestPanic, s => (.jump 1, s)
  | .seq a b, s =>
    match runBody a s with
    | (.normal, s') => runBody b s'
    | r => r
  | .guarded f, s =>
    let original := s.cur
    let localBuf := s.fresh
    let s1 : BridgeState :=
      { cur := localBuf, fresh := s.fresh + 1, saves := s.saves + 1,
        restores := s.restores }
    match runBody f s1 with
    | (.normal, t) => (.normal, { t with cur := original, restores := t.restores + 1 })
    | (.jump c, t) =>
      if t.cur = localBuf then
        (.jump c, { t with cur := original, restores := t.restores + 1 })
      else
        (.jump c, t)

/-! Arena switch, `PgAllocator::exec` (`pg-extend/src/pg_alloc.rs:340`). -/

/-- The process-wide allocator state the switch manipulates:
`CurrentMemoryContext`, an address of a host memory region. -/
structure MemState where
  current : Nat
deriving DecidableEq

/-- How the closure handed to `PgAllocator::exec` finishes: a normal
return, a guest panic unwind, or a host non-local exit inside it. -/
inductive ExecExit where
  | normal : ExecExit
  | guestUnwind : ExecExit
  | hostExit : ExecExit
deriving DecidableEq

/-- Embedding of `PgAllocator::exec` (`pg_alloc.rs:340`): save
`CurrentMemoryContext` into `previous_context`, install the wrapped region,
run the closure, and on a normal return write `previous_context` back
(`pg_alloc.rs:355`). The function body contains no catch and no drop guard
(the comment at `pg_alloc.rs:350` asks `should we catch panics here to
guarantee the context is reset?`), so on a guest unwind or a host non-local
exit the write-back line is never executed and the closure result
propagates with the state it left. -/
def PgAllocator.exec (selfCtx : Nat) (f : MemState → ExecExit × MemState)
    (s : MemState) : ExecExit × MemState :=
  let previous_context := s.current
  let s1 : MemState := { current := selfCtx }
  match f s1 with
  | (.normal, s2) => (.normal, { s2 with current := previous_context })
  | (e, s2) => (e, s2)

/-- Embedding of `PgMemoryContext::switch_to` plus `exec_in_context`
(`pg_alloc.rs:93-105`) under the deployed panic hook: `switch_to` saves the
current region in `savedcxt` and installs the wrapped one; the `Drop`
implementation (`pg_alloc.rs:314`) writes the saved region back when the
wrapper is dropped at the end of `exec_in_context`. Rust drops run only on
normal return here: a guest panic never unwinds (the installed hook
long-jumps out instead), and a host non-local exit abandons the frame, so
on both abnormal exits the restore is skipped. -/
def PgMemoryContext.exec_in_context (selfCtx : Nat)
    (f : MemState → ExecExit × MemState) (s : MemState) : ExecExit × MemState :=
  let savedcxt := s.current
  let s1 : MemState := { current := selfCtx }
  match f s1 with
  | (.normal, s2) => (.normal, { s2 with current := savedcxt })
  | (e, s2) => (e, s2)

/-! Foreign table callbacks, `pg-extend/src/pg_fdw.rs`. -/

/-- The attribute metadata the wrapper reads from a
`FormData_pg_attribute`: the column name and its declared type oid. -/
structure PgAttribute where
  attname : String
  atttypid : Nat
deriving DecidableEq

/-- The column type enum `PgType` (`pg-extend/src/pg_type.rs`): all source
variants are carried, so that the hard-coded `Text` choice of the wrapper
is meaningful against every other declared type. -/
inductive PgType where
  | AbsoluteTime | BigInt | Int8 | Boolean | GeoBox | ByteA | Char
  | Character | CommandId | Date | SmallInt | Int2 | Int2Vector
  | Integer | Int4 | Real | Float4 | DoublePrecision | Float8
  | Interval | Lseg | Name | Oid | OidVector | Path | Point
  | RegProc | RelativeTime | Text | ItemPointer | Time
  | TimeWithTimeZone | Timestamp | TimeInterval | VarChar | Void
deriving DecidableEq

/-- The behavior of a guest `ForeignRow`: its `get_field` method, a function
of the requested column name, column type and options, yielding either a
field value (`none` meaning SQL null) or a lookup error. -/
abbrev RowFn := String → PgType → List (String × String) → Except String (Option Datum)

/-- Embedding of `ForeignWrapper::get_field` (`pg_fdw.rs:247`): the name
comes from the attribute, the options are empty, and the type argument is
hard-coded to `PgType::Text` (the line under the `TODO not fake` comment),
never the declared `atttypid` of the attribute. -/
def ForeignWrapper.getField (row : RowFn) (attr : PgAttribute) :
    Except String (Option Datum) :=
  row attr.attname PgType.Text []

/-- The per-row slot assembly loop of `iterate_foreign_scan`
(`pg_fdw.rs:313-331`): for every attribute of the current tuple descriptor,
one `(datum, isnull)` pair, initialized to `(0, true)` and overwritten only
when the field lookup succeeds with a present value; a lookup error is
logged at warning severity and leaves the column null. -/
def assembleSlot (row : RowFn) (attrs : List PgAttribute) : List (Datum × Bool) :=
  attrs.map fun attr =>
    match ForeignWrapper.getField row attr with
    | .error _ => (0, true)
    | .ok none => (0, true)
    | .ok (some var) => (var, false)

/-- Embedding of `iterate_foreign_scan` (`pg_fdw.rs:300`) at the session
level: the session state is the guest row sequence not yet produced (the
`ForeignData` iterator stored in `fdw_state`); one call clears the slot,
pulls one item, and either populates the slot from it or leaves the slot
cleared (returning null) to signal end of scan. -/
def iterateForeignScan {ρ : Type} (st : List ρ) : Option ρ × List ρ :=
  match st with
  | [] => (none, [])
  | row :: rest => (some row, rest)

/-- Embedding of `rescan_foreign_scan` (`pg_fdw.rs:362`): the body of the
function is empty, so the session state is returned untouched. -/
def rescanForeignScan {ρ : Type} (st : List ρ) : List ρ := st

/-- One whole scan: drive `iterate_foreign_scan` until it signals end of
scan (the executor loop), collecting the populated slots in order, with the
final session state; `fuel` bounds the number of calls. -/
def runScan {ρ : Type} : Nat → List ρ → List ρ × List ρ
  | 0, st => ([], st)
  | fuel + 1, st =>
    match iterateForeignScan st with
    | (none, st') => ([], st')
    | (some r, st') =>
      let rest := runScan fuel st'
      (r :: rest.1, rest.2)

/-- A target list entry (`makeTargetEntry`): the column name (`resname`),
its position in the target list (`resno`), the referenced attribute number
of the synthesized `Var` (1-indexed), and the junk marker (`resjunk`, the
hidden-column flag). -/
structure TargetEntry where
  name : String
  resno : Nat
  varattno : Nat
  resjunk : Bool
deriving DecidableEq

/-- The attribute lookup map of `add_foreign_update_targets`
(`pg_fdw.rs:386-391`): the table attributes keyed by name with their
0-based index; built by collecting into a hash map, so a duplicated name
keeps the last occurrence. -/
def attrLookup (attrs : List PgAttribute) (key : String) : Option (Nat × PgAttribute) :=
  (attrs.enum.reverse).find? fun p => p.2.attname = key

/-- Embedding of `add_foreign_update_targets` (`pg_fdw.rs:367`): when the
wrapper declares index columns, every declared key that names a table
column gets a synthesized column reference appended to the target list of
the statement, marked junk (`resjunk = true`), with `resno` one past the
current list length and `varattno` the 1-indexed attribute position; a key
naming no table column is reported and skipped. The original target list
(whatever columns the statement named) is left in place. -/
def addForeignUpdateTargets (attrs : List PgAttribute)
    (indexCols : Option (List String)) (targetList : List TargetEntry) :
    List TargetEntry :=
  match indexCols with
  | none => targetList
  | some keys =>
    keys.foldl (fun tl key =>
      match attrLookup attrs key with
      | none => tl
      | some (idx, _attr) => tl ++ [⟨key, tl.length + 1, idx + 1, true⟩]) targetList

/-- The column names of the tuple that `exec_foreign_update` and
`exec_foreign_delete` (`pg_fdw.rs:461-502`) pass to the guest `update` /
`delete` methods as the index tuple: `tts_to_hashmap` over the plan slot,
whose tuple descriptor carries one attribute per target list entry, junk
entries included (host evaluation of the completed target list). -/
def planSlotTupleNames (targetList : List TargetEntry) : List String :=
  targetList.map (·.name)

/-! Helper lemmas shared by the varlena theorems. -/

theorem nat_and_three_eq_mod (n : Nat) : n &&& 3 = n % 4 := by
  have h := Nat.and_pow_two_sub_one_eq_mod n 2
  norm_num at h
  exact h

theorem from_varlena_even (v : Varlena) (h : v.vaHeader1b % 2 = 0) :
    VarLenA.from_varlena v = .VarAtt4b v := by
  simp [VarLenA.from_varlena, Nat.and_one_is_mod, h]

theorem from_varlena_odd (v : Varlena) (h : v.vaHeader1b % 2 = 1) :
    VarLenA.from_varlena v = .VarAtt1b v := by
  have h4 : v.vaHeader1b % 4 ≠ 0 := by omega
  have h4' : v.vaHeader1b % 4 ≠ 2 := by omega
  simp [VarLenA.from_varlena, Nat.and_one_is_mod, nat_and_three_eq_mod, h, h4, h4']

/-- C5: for the recognized variable-length layouts the decoded payload length
follows the documented masking rule: a 4-byte-header value (even header
byte) whose shifted length field `(header >> 2) & 0x3FFFFFFF` equals 17
decodes to payload length 13 (17 minus the 4-byte header), and a
1-byte-header value (odd header byte) decodes to
`((header >> 1) & 0x7F) - 1` (the field minus the 1-byte header). -/
theorem c5_varlena_len_rule (v : Varlena) :
    (v.vaHeader1b % 2 = 0 → (v.vaHeader4b >>> 2) &&& 0x3FFFFFFF = 17 →
      VarLenA.len (VarLenA.from_varlena v) = some 13) ∧
    (v.vaHeader1b % 2 = 1 →
      VarLenA.len (VarLenA.from_varlena v) =
        some (((v.vaHeader1b >>> 1) &&& 0x7F) - 1)) := by
  constructor
  · intro heven h17
    rw [from_varlena_even v heven]
    simp [VarLenA.len, h17]
  · intro hodd
    rw [from_varlena_odd v hodd]
    simp [VarLenA.len]

/-- Witness for C5: the concrete 4-byte header word `0x44` (= 68, length
field 17) decodes to payload length 13, and the concrete 1-byte header byte
`0x07` (length field 3) decodes to payload length 2. -/
theorem c5_varlena_len_rule_witness :
    VarLenA.len (VarLenA.from_varlena ⟨[0x44, 0, 0, 0]⟩) = some 13 ∧
    VarLenA.len (VarLenA.from_varlena ⟨[0x07, 10, 20]⟩) = some 2 := by
  constructor
  · exact (c5_varlena_len_rule ⟨[0x44, 0, 0, 0]⟩).1 (by decide) (by decide)
  · have h := (c5_varlena_len_rule ⟨[0x07, 10, 20]⟩).2 (by decide)
    simpa using h

/-- C9: `from_varlena` classifies by the low bit of the header byte alone:
an even header byte always yields `VarAtt4b` and an odd one always yields
`VarAtt1b`; the `VarAtt4bU`, `VarAtt4bC`, `VarAtt1bE` and `VarAttNotPadByte`
branches are unreachable, so `len` and `as_slice` applied to any classified
value are always defined (they never reach the `unimplemented!` branch). -/
theorem c9_from_varlena_classification (v : Varlena) :
    (v.vaHeader1b % 2 = 0 → VarLenA.from_varlena v = .VarAtt4b v) ∧
    (v.vaHeader1b % 2 = 1 → VarLenA.from_varlena v = .VarAtt1b v) ∧
    (VarLenA.len (VarLenA.from_varlena v)).isSome = true ∧
    (VarLenA.as_slice (VarLenA.from_varlena v)).isSome = true := by
  refine ⟨from_varlena_even v, from_varlena_odd v, ?_, ?_⟩
  · rcases Nat.mod_two_eq_zero_or_one v.vaHeader1b with h | h
    · rw [from_varlena_even v h]; simp [VarLenA.len]
    · rw [from_varlena_odd v h]; simp [VarLenA.len]
  · rcases Nat.mod_two_eq_zero_or_one v.vaHeader1b with h | h
    · rw [from_varlena_even v h]; simp [VarLenA.as_slice, VarLenA.len]
    · rw [from_varlena_odd v h]; simp [VarLenA.as_slice, VarLenA.len]

/-- Witness for C9: concrete even and odd header bytes classify to the two
live variants and both `len` and `as_slice` are defined on them. -/
theorem c9_from_varlena_classification_witness :
    VarLenA.from_varlena ⟨[0x08, 1, 2, 3]⟩ = .VarAtt4b ⟨[0x08, 1, 2, 3]⟩ ∧
    VarLenA.from_varlena ⟨[0x05, 9]⟩ = .VarAtt1b ⟨[0x05, 9]⟩ ∧
    (VarLenA.len (VarLenA.from_varlena ⟨[0x05, 9]⟩)).isSome = true := by
  refine ⟨(c9_from_varlena_classification ⟨[0x08, 1, 2, 3]⟩).1 (by decide),
    (c9_from_varlena_classification ⟨[0x05, 9]⟩).2.1 (by decide),
    (c9_from_varlena_classification ⟨[0x05, 9]⟩).2.2.1⟩

/-! Round-trip helpers for the signed integer conversions. -/

theorem signedAsWord_cast (v : Int) : (signedAsWord v : Int) = v % 2 ^ 64 := by
  unfold signedAsWord
  exact Int.toNat_of_nonneg (Int.emod_nonneg v (by norm_num))

theorem lowBitsAsSigned_signedAsWord_16 (v : Int)
    (h1 : -(2 ^ 15) ≤ v) (h2 : v < 2 ^ 15) :
    lowBitsAsSigned 16 (signedAsWord v) = v := by
  have hcast := signedAsWord_cast v
  unfold lowBitsAsSigned
  have hmod : ((signedAsWord v % 2 ^ 16 : Nat) : Int) = v % 2 ^ 16 := by
    push_cast
    rw [hcast]
    exact Int.emod_emod_of_dvd v (by norm_num)
  norm_num at hmod h1 h2 ⊢
  split <;> omega

theorem lowBitsAsSigned_signedAsWord_32 (v : Int)
    (h1 : -(2 ^ 31) ≤ v) (h2 : v < 2 ^ 31) :
    lowBitsAsSigned 32 (signedAsWord v) = v := by
  have hcast := signedAsWord_cast v
  unfold lowBitsAsSigned
  have hmod : ((signedAsWord v % 2 ^ 32 : Nat) : Int) = v % 2 ^ 32 := by
    push_cast
    rw [hcast]
    exact Int.emod_emod_of_dvd v (by norm_num)
  norm_num at hmod h1 h2 ⊢
  split <;> omega

theorem lowBitsAsSigned_signedAsWord_64 (v : Int)
    (h1 : -(2 ^ 63) ≤ v) (h2 : v < 2 ^ 63) :
    lowBitsAsSigned 64 (signedAsWord v) = v := by
  have hcast := signedAsWord_cast v
  unfold lowBitsAsSigned
  have hmod : ((signedAsWord v % 2 ^ 64 : Nat) : Int) = v % 2 ^ 64 := by
    push_cast
    rw [hcast]
    exact Int.emod_emod_of_dvd v (by norm_num)
  norm_num at hmod h1 h2 ⊢
  split <;> omega

/-- C3: for each primitive numeric type in `{i16, i32, i64, f32, f64}`,
converting a value of the type to a word (`From<T> for PgDatum`) and back
(`TryFromPgDatum::try_from`) returns `Ok` of the original value. The
embedded conversions are the bit-level semantics of the source: twos
complement sign extension and truncation for the integers, `to_bits` /
`from_bits` moves for the floats (floats are modelled by their bit
patterns, which is all the code ever touches). -/
theorem c3_numeric_roundtrip :
    (∀ v : Int, -(2 ^ 15) ≤ v → v < 2 ^ 15 →
      tryFromI16 (pgDatumFromI16 v) = .ok v) ∧
    (∀ v : Int, -(2 ^ 31) ≤ v → v < 2 ^ 31 →
      tryFromI32 (pgDatumFromI32 v) = .ok v) ∧
    (∀ v : Int, -(2 ^ 63) ≤ v → v < 2 ^ 63 →
      tryFromI64 (pgDatumFromI64 v) = .ok v) ∧
    (∀ v : F32, v.bits < 2 ^ 32 → tryFromF32 (pgDatumFromF32 v) = .ok v) ∧
    (∀ v : F64, v.bits < 2 ^ 64 → tryFromF64 (pgDatumFromF64 v) = .ok v) := by
  refine ⟨fun v h1 h2 => ?_, fun v h1 h2 => ?_, fun v h1 h2 => ?_,
    fun v h => ?_, fun v h => ?_⟩
  · simp only [tryFromI16, pgDatumFromI16]
    rw [lowBitsAsSigned_signedAsWord_16 v h1 h2]
  · simp only [tryFromI32, pgDatumFromI32]
    rw [lowBitsAsSigned_signedAsWord_32 v h1 h2]
  · simp only [tryFromI64, pgDatumFromI64]
    rw [lowBitsAsSigned_signedAsWord_64 v h1 h2]
  · simp only [tryFromF32, pgDatumFromF32, Nat.mod_eq_of_lt h]
  · simp only [tryFromF64, pgDatumFromF64, Nat.mod_eq_of_lt h]

/-- Witness for C3: concrete round trips, including the boundary value
`2147483647` (`i32::MAX`, the value named by the specification), `-123` for
`i16`, `-(2 ^ 62)` for `i64`, and concrete float bit patterns. -/
theorem c3_numeric_roundtrip_witness :
    tryFromI32 (pgDatumFromI32 2147483647) = .ok 2147483647 ∧
    tryFromI16 (pgDatumFromI16 (-123)) = .ok (-123) ∧
    tryFromI64 (pgDatumFromI64 (-(2 ^ 62))) = .ok (-(2 ^ 62)) ∧
    tryFromF32 (pgDatumFromF32 ⟨0x40490FDB⟩) = .ok ⟨0x40490FDB⟩ ∧
    tryFromF64 (pgDatumFromF64 ⟨0x400921FB54442D18⟩) = .ok ⟨0x400921FB54442D18⟩ := by
  refine ⟨c3_numeric_roundtrip.2.1 2147483647 (by norm_num) (by norm_num),
    c3_numeric_roundtrip.1 (-123) (by norm_num) (by norm_num),
    c3_numeric_roundtrip.2.2.1 (-(2 ^ 62)) (by norm_num) (by norm_num),
    c3_numeric_roundtrip.2.2.2.1 ⟨0x40490FDB⟩ (by norm_num),
    c3_numeric_roundtrip.2.2.2.2 ⟨0x400921FB54442D18⟩ (by norm_num)⟩

/-- C4: a null-tagged word (the `none` case of `PgDatum`) fails with the
null error (`"datum was NULL"`) under every embedded non-optional
conversion, and converts to the absent value `Ok(None)` under the optional
conversion, for every inner target type and conversion whatsoever. -/
theorem c4_null_handling :
    tryFromI16 none = .error "datum was NULL" ∧
    tryFromI32 none = .error "datum was NULL" ∧
    tryFromI64 none = .error "datum was NULL" ∧
    tryFromF32 none = .error "datum was NULL" ∧
    tryFromF64 none = .error "datum was NULL" ∧
    tryFromTextDatum none = .error "datum was NULL" ∧
    (∀ host : Datum → List Nat,
      tryFromCStringDatum host none = .error "datum was NULL") ∧
    (∀ heap : Datum → ArrayType,
      tryFromSliceI32 heap none = .error "datum was NULL") ∧
    (∀ (α : Type) (inner : PgDatum → Except String α),
      tryFromOption inner none = .ok none) := by
  exact ⟨rfl, rfl, rfl, rfl, rfl, rfl, fun _ => rfl, fun _ => rfl, fun _ _ => rfl⟩

/-! Array slice conversion: C6. -/

theorem datumsAsI32Slice_length (ds : List Datum) :
    (datumsAsI32Slice ds).length = 2 * ds.length := by
  induction ds with
  | nil => rfl
  | cons d rest ih =>
    simp only [datumsAsI32Slice] at ih ⊢
    rw [List.flatMap_cons, List.length_append, ih]
    simp only [List.length_cons, List.length_nil]
    omega

/-- Counterexample for C6: a one-dimensional array word of the three `i32`
elements `[1, 2, 3]` converts successfully, but to the six-element slice
`[1, 0, 2, 0, 3, 0]` (each 8-byte element datum is read as two `i32`
halves), not to `[1, 2, 3]`; moreover a zero-dimensional (empty) array word
also converts successfully, so success is not restricted to dimensionality
exactly one. -/
theorem c6_slice_counterexample :
    tryFromSliceI32 (fun _ => ⟨1, 23, [1, 2, 3], [false, false, false]⟩)
      (some 1000) = .ok [1, 0, 2, 0, 3, 0] ∧
    (Except.ok [1, 0, 2, 0, 3, 0] : Except String (List Int)) ≠ .ok [1, 2, 3] ∧
    tryFromSliceI32 (fun _ => ⟨0, 23, [], []⟩) (some 1000) = .ok [] := by
  refine ⟨rfl, fun h => ?_, rfl⟩
  have h' := congrArg (fun e : Except String (List Int) =>
    match e with | .ok l => l | .error _ => []) h
  simp at h'

/-- C6 as amended: for every non-null array word, the conversion fails with
the dimensionality error exactly when the dimensionality exceeds one (every
two-dimensional word fails, while zero- and one-dimensional words succeed),
and a successful conversion yields the raw reinterpretation of the 8-byte
element-datum array as `i32` halves: a slice of `2 * nelems` values, not the
`nelems` element values. -/
theorem c6_slice_dimensionality (heap : Datum → ArrayType) (p : Datum)
    (hp : p ≠ 0) :
    (1 < (heap p).ndim →
      tryFromSliceI32 heap (some p) =
        .error "argument must be empty or one-dimensional array") ∧
    ((heap p).ndim ≤ 1 →
      tryFromSliceI32 heap (some p) = .ok (datumsAsI32Slice (heap p).elements) ∧
      (datumsAsI32Slice (heap p).elements).length =
        2 * (heap p).elements.length) := by
  constructor
  · intro hdim
    simp [tryFromSliceI32, hp, hdim]
  · intro hdim
    have hnot : ¬ 1 < (heap p).ndim := by omega
    exact ⟨by simp [tryFromSliceI32, hp, hnot], datumsAsI32Slice_length _⟩

/-- Witness for C6 as amended: a concrete two-dimensional word fails with
the dimensionality error, and a concrete one-dimensional word of datums
`[1, 2, 3]` succeeds with a slice of length 6. -/
theorem c6_slice_dimensionality_witness :
    tryFromSliceI32 (fun _ => ⟨2, 23, [1, 2], [false, false]⟩) (some 7) =
      .error "argument must be empty or one-dimensional array" ∧
    tryFromSliceI32 (fun _ => ⟨1, 23, [1, 2, 3], [false, false, false]⟩)
      (some 7) = .ok (datumsAsI32Slice [1, 2, 3]) ∧
    (datumsAsI32Slice [1, 2, 3]).length = 2 * 3 := by
  refine ⟨(c6_slice_dimensionality (fun _ => ⟨2, 23, [1, 2], [false, false]⟩) 7
      (by decide)).1 (by decide), ?_⟩
  have h := (c6_slice_dimensionality
      (fun _ => ⟨1, 23, [1, 2, 3], [false, false, false]⟩) 7 (by decide)).2
      (by decide)
  exact h

/-! Exception bridge: C1. -/

theorem runBody_inv (b : Body) : ∀ s : BridgeState,
    (runBody b s).2.cur = s.cur ∧
    (runBody b s).2.saves + s.restores = (runBody b s).2.restores + s.saves ∧
    s.saves ≤ (runBody b s).2.saves := by
  induction b with
  | ret => intro s; exact ⟨rfl, Nat.add_comm _ _, Nat.le_refl _⟩
  | hostJump c => intro s; exact ⟨rfl, Nat.add_comm _ _, Nat.le_refl _⟩
  | guestPanic => intro s; exact ⟨rfl, Nat.add_comm _ _, Nat.le_refl _⟩
  | seq a b iha ihb =>
    intro s
    have ha := iha s
    have hb := ihb (runBody a s).2
    rcases hr : runBody a s with ⟨flow, s'⟩
    rw [hr] at ha hb
    dsimp only at ha hb
    cases flow with
    | normal =>
      simp only [runBody, hr]
      exact ⟨by rw [hb.1, ha.1], by omega, by omega⟩
    | jump c =>
      simp only [runBody, hr]
      exact ha
  | guarded f ihf =>
    intro s
    have hf := ihf ⟨s.fresh, s.fresh + 1, s.saves + 1, s.restores⟩
    rcases hr : runBody f ⟨s.fresh, s.fresh + 1, s.saves + 1, s.restores⟩ with ⟨flow, t⟩
    rw [hr] at hf
    dsimp only at hf
    cases flow with
    | normal =>
      simp only [runBody, hr]
      exact ⟨by trivial, by omega, by omega⟩
    | jump c =>
      simp only [runBody, hr]
      rw [if_pos hf.1]
      dsimp only
      exact ⟨by trivial, by omega, by omega⟩

/-- C1: a `guard_pg` call restores the previously saved exception target
exactly once per call. For every closure body `f` (including nested
sequences of guarded calls, host long-jumps and guest panics), running the
guarded call leaves `PG_exception_stack` at its prior value and keeps the
save count equal to the restore count (each guarded call in the run,
including the outer one, restored exactly the target it saved); the three
named exit paths each perform exactly one restore for the outer call. -/
theorem c1_guard_pg_restores_once (f : Body) (s : BridgeState) (c : Nat) :
    ((runBody (.guarded f) s).2.cur = s.cur ∧
      (runBody (.guarded f) s).2.saves + s.restores =
        (runBody (.guarded f) s).2.restores + s.saves ∧
      s.saves < (runBody (.guarded f) s).2.saves) ∧
    (runBody (.guarded .ret) s).2.restores = s.restores + 1 ∧
    (runBody (.guarded (.hostJump c)) s).2.restores = s.restores + 1 ∧
    (runBody (.guarded .guestPanic) s).2.restores = s.restores + 1 := by
  refine ⟨?_, by simp [runBody], by simp [runBody], by simp [runBody]⟩
  have hinv := runBody_inv (.guarded f) s
  have hf := runBody_inv f ⟨s.fresh, s.fresh + 1, s.saves + 1, s.restores⟩
  rcases hr : runBody f ⟨s.fresh, s.fresh + 1, s.saves + 1, s.restores⟩ with ⟨flow, t⟩
  rw [hr] at hf
  dsimp only at hf
  refine ⟨hinv.1, hinv.2.1, ?_⟩
  cases flow with
  | normal =>
    simp only [runBody, hr]
    omega
  | jump c' =>
    simp only [runBody, hr]
    rw [if_pos hf.1]
    dsimp only
    omega

/-! Arena switch: C2. -/

/-- Theorem for C2 (a code bug): `PgAllocator::exec` writes the previous
region back only on the normal-return path. Evaluated at concrete inputs:
with region 1 current and the wrapped region 2, a normally returning
closure ends with region 1 current again, but a closure that ends in a
guest unwind or in a host non-local exit leaves region 2 current — the
restore line is skipped, and the same holds for `exec_in_context`, whose
drop-based restore never runs on either abnormal exit under the installed
panic hook. This contradicts the claim that the prior region is restored
on every exit path. -/
theorem c2_exec_restore_skipped_on_unwind :
    (PgAllocator.exec 2 (fun s => (.normal, s)) ⟨1⟩).2.current = 1 ∧
    (PgAllocator.exec 2 (fun s => (.guestUnwind, s)) ⟨1⟩).2.current = 2 ∧
    (PgAllocator.exec 2 (fun s => (.hostExit, s)) ⟨1⟩).2.current = 2 ∧
    (PgMemoryContext.exec_in_context 2 (fun s => (.guestUnwind, s)) ⟨1⟩).2.current = 2 ∧
    (PgMemoryContext.exec_in_context 2 (fun s => (.hostExit, s)) ⟨1⟩).2.current = 2 :=
  ⟨rfl, rfl, rfl, rfl, rfl⟩

/-! Foreign scan: C7, C8, C10. -/

theorem runScan_complete {ρ : Type} (rows : List ρ) :
    runScan (rows.length + 1) rows = (rows, []) := by
  induction rows with
  | nil => rfl
  | cons r rest ih =>
    simp only [List.length_cons]
    have h1 : runScan (rest.length + 1 + 1) (r :: rest) =
        (r :: (runScan (rest.length + 1) rest).1,
          (runScan (rest.length + 1) rest).2) := rfl
    rw [h1, ih]

/-- Theorem for C7 (a code bug): a first scan over the two-item session
`[10, 20]` yields exactly the two populated slots and ends with the
exhausted session; `rescan_foreign_scan` has an empty body and returns the
exhausted session unchanged, so the second scan yields no populated slots
at all — not the identical two slots the claim requires. The general fact
that one scan of an `N`-item session yields exactly its `N` items holds
(first conjunct, instantiated; `runScan_complete` proves it for every
session). -/
theorem c7_rescan_does_not_reset :
    runScan 3 [10, 20] = ([10, 20], []) ∧
    rescanForeignScan ([] : List Nat) = [] ∧
    runScan 3 (rescanForeignScan ([] : List Nat)) = ([], []) ∧
    ([] : List Nat) ≠ [10, 20] := by
  refine ⟨rfl, rfl, rfl, by decide⟩

theorem addTargets_preserves (attrs : List PgAttribute) (keys : List String)
    (key : String) : ∀ tl : List TargetEntry,
    key ∈ planSlotTupleNames tl →
    key ∈ planSlotTupleNames (addForeignUpdateTargets attrs (some keys) tl) := by
  induction keys with
  | nil => intro tl h; exact h
  | cons k ks ih =>
    intro tl h
    simp only [addForeignUpdateTargets, List.foldl_cons]
    cases hl : attrLookup attrs k with
    | none =>
      have := ih tl h
      simpa [addForeignUpdateTargets, hl] using this
    | some v =>
      have hmem : key ∈ planSlotTupleNames (tl ++ [⟨k, tl.length + 1, v.1 + 1, true⟩]) := by
        simp [planSlotTupleNames] at h ⊢
        exact Or.inl h
      have := ih (tl ++ [⟨k, tl.length + 1, v.1 + 1, true⟩]) hmem
      simpa [addForeignUpdateTargets, hl] using this

theorem addTargets_junk (attrs : List PgAttribute) (keys : List String) :
    ∀ (tl : List TargetEntry) (e : TargetEntry),
    e ∈ addForeignUpdateTargets attrs (some keys) tl →
    e ∈ tl ∨ e.resjunk = true := by
  induction keys with
  | nil => intro tl e h; exact Or.inl h
  | cons k ks ih =>
    intro tl e h
    simp only [addForeignUpdateTargets, List.foldl_cons] at h
    cases hl : attrLookup attrs k with
    | none =>
      rw [hl] at h
      exact ih tl e (by simpa [addForeignUpdateTargets] using h)
    | some v =>
      rw [hl] at h
      have := ih (tl ++ [⟨k, tl.length + 1, v.1 + 1, true⟩]) e
        (by simpa [addForeignUpdateTargets] using h)
      rcases this with hin | hj
      · rcases List.mem_append.mp hin with h1 | h2
        · exact Or.inl h1
        · simp at h2
          right
          rw [h2]
      · exact Or.inr hj

theorem addTargets_mem (attrs : List PgAttribute) (key : String)
    (keys : List String) : ∀ tl : List TargetEntry, key ∈ keys →
    (attrLookup attrs key).isSome = true →
    key ∈ planSlotTupleNames (addForeignUpdateTargets attrs (some keys) tl) := by
  induction keys with
  | nil => intro tl hk _; cases hk
  | cons k ks ih =>
    intro tl hk hs
    rcases List.mem_cons.mp hk with heq | hmem
    · subst heq
      rcases ho : attrLookup attrs key with _ | v
      · rw [ho] at hs; cases hs
      · have hstart : key ∈ planSlotTupleNames
            (tl ++ [⟨key, tl.length + 1, v.1 + 1, true⟩]) := by
          simp [planSlotTupleNames]
        have hpres := addTargets_preserves attrs ks key
          (tl ++ [⟨key, tl.length + 1, v.1 + 1, true⟩]) hstart
        simpa [addForeignUpdateTargets, List.foldl_cons, ho] using hpres
    · rcases ho : attrLookup attrs k with _ | v
      · have := ih tl hmem hs
        simpa [addForeignUpdateTargets, List.foldl_cons, ho] using this
      · have := ih (tl ++ [⟨k, tl.length + 1, v.1 + 1, true⟩]) hmem hs
        simpa [addForeignUpdateTargets, List.foldl_cons, ho] using this

/-- C8: when the wrapper declares index columns for the target table, every
declared index column that names a table column ends up with an entry in
the target list after `add_foreign_update_targets` — whatever columns the
original statement listed — so the index tuple built from the plan slot and
passed to `update()` / `delete()` contains an entry for that column; and
every entry not already in the original statement list carries the hidden
(junk) marker. -/
theorem c8_index_columns_injected (attrs : List PgAttribute)
    (keys : List String) (tl : List TargetEntry) (key : String)
    (hk : key ∈ keys) (hattr : (attrLookup attrs key).isSome = true) :
    key ∈ planSlotTupleNames (addForeignUpdateTargets attrs (some keys) tl) ∧
    ∀ e ∈ addForeignUpdateTargets attrs (some keys) tl,
      e ∈ tl ∨ e.resjunk = true :=
  ⟨addTargets_mem attrs key keys tl hk hattr, addTargets_junk attrs keys tl⟩

/-- Witness for C8: the specification example, declared index columns
`{"key"}` with an UPDATE statement naming only `"value"`: the completed
target list contains a `"key"` entry, and every entry beyond the original
one is junk-marked. -/
theorem c8_index_columns_injected_witness :
    "key" ∈ planSlotTupleNames (addForeignUpdateTargets
      [⟨"key", 23⟩, ⟨"value", 25⟩] (some ["key"])
      [⟨"value", 1, 2, false⟩]) :=
  (c8_index_columns_injected [⟨"key", 23⟩, ⟨"value", 25⟩] ["key"]
    [⟨"value", 1, 2, false⟩] "key" (by decide) (by decide)).1

/-- C10: during row production the wrapper requests every field with the
column type parameter fixed to `PgType::Text`: `ForeignWrapper::get_field`
passes `Text` and empty options for every attribute, and consequently the
assembled slot of a row is entirely independent of the declared column
types of the attribute list. -/
theorem c10_get_field_always_text :
    (∀ (row : RowFn) (attr : PgAttribute),
      ForeignWrapper.getField row attr = row attr.attname PgType.Text []) ∧
    (∀ (row : RowFn) (attrs : List PgAttribute) (newType : PgAttribute → Nat),
      assembleSlot row (attrs.map fun a => ⟨a.attname, newType a⟩) =
        assembleSlot row attrs) := by
  refine ⟨fun row attr => rfl, fun row attrs newType => ?_⟩
  simp only [assembleSlot, List.map_map]
  rfl

end PgExtend
